import Mathlib

/-!
# Verification of the POSIX HDLC transport (`src/posix/platform/hdlc_interface.cpp`)

A shallow embedding of the transport manager of the OpenThread POSIX app:
the write retry loop (`HdlcInterface::Write`), frame sending
(`HdlcInterface::SendFrame`), the read/decode cycle (`HdlcInterface::Read`
and `HdlcInterface::Decode`), lifecycle (`HdlcInterface::Init`,
`HdlcInterface::Deinit`) and the line-configuration logic of
`HdlcInterface::OpenFile` (sscanf parse, parity/stop-bit/baud switches).

Bytes are modelled as `Nat`, buffers as `List Nat`, the results of the
underlying `write(2)`/`read(2)` system calls as explicit schedules handed
to the embedded functions.  `Option` models process termination or an
undetermined outcome: `none` where the C code calls `exit`/`abort` (for
`OpenFile`) or where the supplied schedule ran out (for `Write`).
-/

namespace HdlcIf

/-- The `otError` values this translation unit actually returns:
`OT_ERROR_NONE`, `OT_ERROR_FAILED`, `OT_ERROR_ALREADY`,
`OT_ERROR_INVALID_ARGS`. -/
inductive OtError
  | none
  | failed
  | already
  | invalidArgs
deriving DecidableEq, Repr

/-- One return of the underlying `write(2)` call as seen by
`HdlcInterface::Write`: either a byte count `rval ≥ 0` (`wrote n`), or a
negative `rval` together with the errno classification (`err wouldBlock`,
where `wouldBlock` records whether `errno == EAGAIN`). -/
inductive WriteRet
  | wrote (n : Nat)
  | err (wouldBlock : Bool)
deriving DecidableEq, Repr

/-- `HdlcInterface::Write` retry loop (hdlc_interface.cpp lines 183–212,
non-virtual-time build).  State: `sent` is the bytes already handed to
`write` (the region behind the advanced `aFrame` pointer), `remaining`
the bytes still to send (`aFrame`/`aLength`).  Each loop iteration
consumes one schedule entry:
* `rval > 0`: `aLength -= rval; aFrame += rval` — move `rval` bytes from
  `remaining` to `sent` and continue;
* `rval < 0`: `perror` then `ExitNow(error = OT_ERROR_FAILED)` — the
  errno is never inspected;
* `rval == 0`: `ExitNow(error = OT_ERROR_FAILED)`.
The loop exits with `OT_ERROR_NONE` when `aLength` reaches zero.
`none` means the finite schedule was exhausted with the loop still
running (the C loop would issue a further `write`). -/
def writeGo (sent remaining : List Nat) (sched : List WriteRet) :
    Option (OtError × List Nat × List Nat) :=
  match remaining, sched with
  | [], _ => some (OtError.none, sent, [])
  | _ :: _, [] => Option.none
  | b :: rem, r :: rest =>
    match r with
    | WriteRet.wrote n =>
      if 0 < n then
        writeGo (sent ++ (b :: rem).take n) ((b :: rem).drop n) rest
      else
        some (OtError.failed, sent, b :: rem)
    | WriteRet.err _ => some (OtError.failed, sent, b :: rem)

/-- `HdlcInterface::Write` on a whole frame: the loop starts with the full
frame remaining and nothing sent. -/
def hdlcWrite (frame : List Nat) (sched : List WriteRet) : Option (OtError × List Nat × List Nat) :=
  writeGo [] frame sched

/-- Outcome of the HDLC encoding phase of `SendFrame` (the encoder itself
lives in `src/lib/hdlc/hdlc.cpp`, outside this translation unit): either
the encoded wire bytes, or the error returned by
`Init`/`Encode`/`Finalize` which `SuccessOrExit` propagates. -/
inductive EncodeOutcome
  | ok (bytes : List Nat)
  | encodeErr (e : OtError)
deriving DecidableEq, Repr

/-- `HdlcInterface::SendFrame` (lines 167–181): on an encoder error the
error is returned unchanged; otherwise the result is the error of
`Write` on the encoded bytes. -/
def sendFrame (enc : EncodeOutcome) (sched : List WriteRet) : Option OtError :=
  match enc with
  | EncodeOutcome.encodeErr e => some e
  | EncodeOutcome.ok bytes => (hdlcWrite bytes sched).map (fun x => x.1)

/-- A schedule entry is a strictly positive byte count. -/
def isPosWrite : WriteRet → Bool
  | WriteRet.wrote n => decide (0 < n)
  | WriteRet.err _ => false

/-- A schedule is bounded for a remaining length `n` when each successive
count is at most the bytes still unsent at that iteration — the POSIX
guarantee that `write` never reports more bytes than requested. -/
def boundedSched : Nat → List WriteRet → Bool
  | _, [] => true
  | n, WriteRet.wrote k :: rest => decide (k ≤ n) && boundedSched (n - k) rest
  | _, WriteRet.err _ :: _ => true

/-- Sum of the byte counts a schedule can deliver. -/
def schedTotal : List WriteRet → Nat
  | [] => 0
  | WriteRet.wrote k :: rest => k + schedTotal rest
  | WriteRet.err _ :: rest => schedTotal rest

/-! ## Read / decode cycle -/

/-- One return of the underlying `read(2)` call as seen by
`HdlcInterface::Read`: either `rval ≥ 0` with the bytes placed in the
local buffer (`ok bytes`, `rval = bytes.length`), or `rval < 0` with the
errno classification (`wouldBlock` records whether `errno == EAGAIN`). -/
inductive ReadRet
  | ok (bytes : List Nat)
  | err (wouldBlock : Bool)
deriving DecidableEq, Repr

/-- Observable effect of one `HdlcInterface::Read` call
(hdlc_interface.cpp lines 137–158): `ret` — the call returned normally
without decoding; `decoded bytes` — the call handed exactly `bytes` to
`Decode`; `aborted` — the call reached `abort()`. -/
inductive ReadEffect
  | ret
  | decoded (bytes : List Nat)
  | aborted
deriving DecidableEq, Repr

/-- `HdlcInterface::Read`:
* `rval < 0`: `perror`, then `abort()` unless `errno == EAGAIN`;
* `rval > 0`: `Decode(buffer, rval)` on exactly the bytes read;
* `rval == 0`: fall through, no decode. -/
def hdlcRead : ReadRet → ReadEffect
  | ReadRet.ok bytes => if bytes.isEmpty then ReadEffect.ret else ReadEffect.decoded bytes
  | ReadRet.err wouldBlock => if wouldBlock then ReadEffect.ret else ReadEffect.aborted

/-! ## The re-entrancy guard of `Decode`

`HdlcInterface::Decode` (lines 160–165) sets `mIsDecoding = true`, feeds
the bytes to the HDLC decoder — which synchronously invokes the
frame/error callbacks — and sets `mIsDecoding = false` afterwards.
Nothing in the translation unit touches `mIsDecoding` in between. -/

/-- The per-manager guard state: the `mIsDecoding` member. -/
structure GuardState where
  mIsDecoding : Bool
deriving DecidableEq, Repr

/-- An event occurring synchronously inside the decoder run: a listener
callback being invoked, or the listener attempting a nested read on the
same manager. -/
inductive DecodeEvent
  | callback
  | readAttempt
deriving DecidableEq, Repr

/-- What each in-decode event observed: the guard flag a callback saw, or
whether an attempted nested read was actually performed. -/
inductive EventObs
  | sawFlag (b : Bool)
  | readPerformed (b : Bool)
deriving DecidableEq, Repr

/-- Modelled from the spec: the re-entrancy guard check itself — "A
re-entrancy guard prevents a callback from invoking another read on the
same manager."  The guard flag `mIsDecoding` is set and cleared in this
translation unit, but the code consulting it lives in the caller
(`radio_spinel`), outside `src/`: a read attempt is carried out only
when the manager is not currently decoding. -/
def guardedRead (s : GuardState) : Bool :=
  !s.mIsDecoding

/-- `HdlcInterface::Decode`: set `mIsDecoding := true`, run the decoder —
during which every synchronous event observes the flag as set and every
nested read attempt passes through the guard — then set
`mIsDecoding := false`.  Returns the observations and the final state. -/
def hdlcDecode (evs : List DecodeEvent) (_s : GuardState) : List EventObs × GuardState :=
  let during : GuardState := { mIsDecoding := true }
  let obs := evs.map fun e =>
    match e with
    | DecodeEvent.callback => EventObs.sawFlag during.mIsDecoding
    | DecodeEvent.readAttempt => EventObs.readPerformed (guardedRead during)
  (obs, { mIsDecoding := false })

/-! ## Lifecycle: `Init` and `Deinit` -/

/-- The transport manager state the lifecycle claims are about: the
channel descriptor `mSockFd` (`-1` = closed). -/
structure HdlcState where
  mSockFd : Int
deriving DecidableEq, Repr

/-- Outcome of the `stat(aRadioFile, &st)` probe in `Init`: the call
failed, or the file is a character device, a regular file, or some other
kind. -/
inductive StatRes
  | statFail
  | chrDev
  | regFile
  | other
deriving DecidableEq, Repr

/-- `HdlcInterface::Init` (lines 93–122).  `openRes` is the descriptor
returned by `OpenFile`/`ForkPty` when that call is reached (`-1` on
failure; both helpers return `-1` or a valid descriptor — other failures
inside `OpenFile` terminate the process and never return).  `ptyEnabled`
is `OPENTHREAD_CONFIG_POSIX_APP_ENABLE_PTY_DEVICE`.
* a live channel (`mSockFd != -1`) fails immediately with
  `OT_ERROR_ALREADY`;
* `stat` failure yields `OT_ERROR_INVALID_ARGS`;
* a character device assigns `mSockFd = OpenFile(...)` and fails with
  `OT_ERROR_INVALID_ARGS` if that is `-1`;
* a regular file does the same via `ForkPty` when the pty mode is
  compiled in, and otherwise falls to the unsupported-type branch;
* any other file kind yields `OT_ERROR_INVALID_ARGS`. -/
def hdlcInit (st : HdlcState) (statRes : StatRes) (openRes : Int) (ptyEnabled : Bool) :
    OtError × HdlcState :=
  if st.mSockFd ≠ -1 then (OtError.already, st)
  else
    match statRes with
    | StatRes.statFail => (OtError.invalidArgs, st)
    | StatRes.chrDev =>
      if openRes ≠ -1 then (OtError.none, { mSockFd := openRes })
      else (OtError.invalidArgs, { mSockFd := -1 })
    | StatRes.regFile =>
      if ptyEnabled then
        if openRes ≠ -1 then (OtError.none, { mSockFd := openRes })
        else (OtError.invalidArgs, { mSockFd := -1 })
      else (OtError.invalidArgs, st)
    | StatRes.other => (OtError.invalidArgs, st)

/-- `HdlcInterface::Deinit` (lines 124–135).  `closeOk`/`waitOk` are the
success of the `close`/`wait` calls.  `none` models the entry assertion
`assert(mSockFd != -1)` firing; otherwise the state after the call:
`mSockFd` is reset to `-1` only when both `close` and `wait` succeed. -/
def hdlcDeinit (st : HdlcState) (closeOk waitOk : Bool) : Option HdlcState :=
  if st.mSockFd = -1 then Option.none
  else if closeOk then
    if waitOk then some { mSockFd := -1 }
    else some st
  else some st

/-! ## Line configuration: `OpenFile`

`HdlcInterface::OpenFile` (lines 214–374) initialises
`speed = 115200`, `parity = 'N'`, `cstopb = 1`, then parses the
configuration string with `sscanf(aConfig, "%u%c%d", ...)` and runs three
switches.  Every `default` branch is `assert(false); exit(OT_EXIT_INVALID_ARGUMENTS)`. -/

/-- Numeric value of a decimal digit string (most significant first). -/
def digitsVal : List Char → Nat
  | [] => 0
  | c :: rest => digitsVal rest + (c.toNat - 48) * 10 ^ rest.length

/-- `sscanf(aConfig, "%u%c%d", &speed, &parity, &cstopb)` on a
configuration given as a character list, for inputs whose numeric fields
are plain decimal digit runs: each conversion that succeeds overwrites
the corresponding variable, and the scan stops at the first conversion
that fails, leaving the remaining variables at their initial values
`115200` / `'N'` / `1`.
* `%u` skips leading whitespace and needs at least one digit;
* `%c` consumes exactly the next character;
* `%d` skips leading whitespace and needs at least one digit
  (an optional sign is also accepted).
`scanStop` is the `%d` conversion for `cstopb`, fed the input left after
`%u` consumed the digit run `ds` and `%c` consumed `parity`. -/
def scanStop (ds : List Char) (parity : Char) (r2 : List Char) : Nat × Char × Int :=
  match r2.dropWhile Char.isWhitespace with
  | '-' :: r4 =>
    match r4.takeWhile Char.isDigit with
    | [] => (digitsVal ds, parity, 1)
    | ds2 => (digitsVal ds, parity, -(digitsVal ds2 : Int))
  | '+' :: r4 =>
    match r4.takeWhile Char.isDigit with
    | [] => (digitsVal ds, parity, 1)
    | ds2 => (digitsVal ds, parity, (digitsVal ds2 : Int))
  | r4 =>
    match r4.takeWhile Char.isDigit with
    | [] => (digitsVal ds, parity, 1)
    | ds2 => (digitsVal ds, parity, (digitsVal ds2 : Int))

def scanConfig (cs : List Char) : Nat × Char × Int :=
  match (cs.dropWhile Char.isWhitespace).takeWhile Char.isDigit,
        (cs.dropWhile Char.isWhitespace).dropWhile Char.isDigit with
  | [], _ => (115200, 'N', 1)
  | ds, [] => (digitsVal ds, 'N', 1)
  | ds, parity :: r2 => scanStop ds parity r2

/-- The parity mode the parity switch programs into `c_cflag`
(lines 243–258): `'N'` leaves the flags, `'E'` sets `PARENB`, `'O'` sets
`PARENB | PARODD`; anything else exits with
`OT_EXIT_INVALID_ARGUMENTS` (`none`). -/
inductive Parity
  | evenOff
  | even
  | odd
deriving DecidableEq, Repr

def parityOf (c : Char) : Option Parity :=
  if c = 'N' then some Parity.evenOff
  else if c = 'E' then some Parity.even
  else if c = 'O' then some Parity.odd
  else Option.none

/-- The stop-bit switch (lines 260–272): `1` clears `CSTOPB`, `2` sets
it; anything else exits with `OT_EXIT_INVALID_ARGUMENTS` (`none`). -/
def stopBitsOf (cstopb : Int) : Option Nat :=
  if cstopb = 1 then some 1
  else if cstopb = 2 then some 2
  else Option.none

/-- The fixed baud-rate table (lines 274–360): supported decimal rates
paired with the platform's `Bxxxx` symbolic constants (glibc/Linux
values, where every optional `#ifdef Bxxxx` entry is present). -/
def baudTable : List (Nat × Nat) :=
  [(9600, 13), (19200, 14), (38400, 15), (57600, 4097), (115200, 4098),
   (230400, 4099), (460800, 4100), (500000, 4101), (576000, 4102),
   (921600, 4103), (1000000, 4104), (1152000, 4105), (1500000, 4106),
   (2000000, 4107), (2500000, 4108), (3000000, 4109), (3500000, 4110),
   (4000000, 4111)]

/-- The baud-rate switch: a listed decimal rate selects its symbolic
constant; an unlisted rate exits with `OT_EXIT_INVALID_ARGUMENTS`
(`none`). -/
def baudOf (speed : Nat) : Option Nat :=
  (baudTable.find? fun p => p.1 == speed).map fun p => p.2

/-- The rates the baud table recognises. -/
def supportedBauds : List Nat :=
  baudTable.map fun p => p.1

/-- The line parameters `OpenFile` ends up programming with
`cfsetspeed`/`tcsetattr`. -/
structure LineCfg where
  baudConst : Nat
  parity : Parity
  stopBits : Nat
deriving DecidableEq, Repr

/-- The configuration phase of `OpenFile` on a terminal device: the three
switches in source order — parity, then stop bits, then baud.  `none`
models `exit(OT_EXIT_INVALID_ARGUMENTS)` from the first switch whose
value is unrecognised; there is no fallback to a default in any switch. -/
def termiosCfg (speed : Nat) (parity : Char) (cstopb : Int) : Option LineCfg :=
  match parityOf parity with
  | Option.none => Option.none
  | some p =>
    match stopBitsOf cstopb with
    | Option.none => Option.none
    | some s =>
      match baudOf speed with
      | Option.none => Option.none
      | some b => some { baudConst := b, parity := p, stopBits := s }

/-- `OpenFile`'s whole parse-and-program pipeline on the configuration
string (terminal case): parse with `sscanf`, then run the switches. -/
def openFileLine (cfg : List Char) : Option LineCfg :=
  let (speed, parity, cstopb) := scanConfig cfg
  termiosCfg speed parity cstopb

/-! ## Theorems about the write retry loop -/

/-- On an all-positive, bounded schedule that covers the frame, the loop
completes, moving every remaining byte to the sent side in order. -/
lemma writeGo_pos_complete (sched : List WriteRet) :
    ∀ sent remaining : List Nat,
      (∀ r ∈ sched, isPosWrite r = true) →
      boundedSched remaining.length sched = true →
      remaining.length ≤ schedTotal sched →
      writeGo sent remaining sched = some (OtError.none, sent ++ remaining, []) := by
  induction sched with
  | nil =>
    intro sent remaining _ _ hcov
    have h0 : remaining = [] := by simpa [schedTotal] using hcov
    subst h0
    simp [writeGo]
  | cons r rest ih =>
    intro sent remaining hpos hbnd hcov
    cases remaining with
    | nil => simp [writeGo]
    | cons b rem =>
      cases r with
      | wrote n =>
        have hn : 0 < n := by
          have := hpos (WriteRet.wrote n) (by simp)
          simpa [isPosWrite] using this
        have hb : n ≤ (b :: rem).length ∧ boundedSched ((b :: rem).length - n) rest = true := by
          simpa [boundedSched, Bool.and_eq_true, decide_eq_true_eq] using hbnd
        have hcov' : ((b :: rem).drop n).length ≤ schedTotal rest := by
          have : (b :: rem).length ≤ n + schedTotal rest := by
            simpa [schedTotal] using hcov
          simp only [List.length_drop]
          omega
        have hbnd' : boundedSched ((b :: rem).drop n).length rest = true := by
          simpa [List.length_drop] using hb.2
        have hpos' : ∀ r' ∈ rest, isPosWrite r' = true := fun r' hr' => hpos r' (by simp [hr'])
        have := ih (sent ++ (b :: rem).take n) ((b :: rem).drop n) hpos' hbnd' hcov'
        rw [writeGo, if_pos hn, this, List.append_assoc, List.take_append_drop]
      | err wb =>
        have := hpos (WriteRet.err wb) (by simp)
        simp [isPosWrite] at this

/-- Whenever the loop produces a result, that result is `OT_ERROR_NONE`
exactly when the remaining length has reached zero. -/
lemma writeGo_success_iff (sched : List WriteRet) :
    ∀ (sent remaining s rem : List Nat) (e : OtError),
      writeGo sent remaining sched = some (e, s, rem) →
      (e = OtError.none ↔ rem = []) := by
  induction sched with
  | nil =>
    intro sent remaining s rem e h
    cases remaining with
    | nil =>
      rw [writeGo] at h
      obtain ⟨rfl, rfl, rfl⟩ := by simpa using h
      simp
    | cons b t => rw [writeGo] at h; exact absurd h (by simp)
  | cons r rest ih =>
    intro sent remaining s rem e h
    cases remaining with
    | nil =>
      rw [writeGo] at h
      obtain ⟨rfl, rfl, rfl⟩ := by simpa using h
      simp
    | cons b t =>
      cases r with
      | wrote n =>
        by_cases hn : 0 < n
        · rw [writeGo, if_pos hn] at h
          exact ih _ _ _ _ _ h
        · rw [writeGo, if_neg hn] at h
          obtain ⟨rfl, rfl, rfl⟩ := by simpa using h
          simp
      | err wb =>
        rw [writeGo] at h
        obtain ⟨rfl, rfl, rfl⟩ := by simpa using h
        simp

/-- On any bounded schedule at least as long as the frame, the loop
reaches a result: each consumed entry either strictly shrinks the
remaining bytes or returns. -/
lemma writeGo_total (sched : List WriteRet) :
    ∀ sent remaining : List Nat,
      boundedSched remaining.length sched = true →
      remaining.length ≤ sched.length →
      (writeGo sent remaining sched).isSome = true := by
  induction sched with
  | nil =>
    intro sent remaining _ hlen
    have h0 : remaining = [] := by simpa using hlen
    subst h0
    simp [writeGo]
  | cons r rest ih =>
    intro sent remaining hbnd hlen
    cases remaining with
    | nil => simp [writeGo]
    | cons b t =>
      cases r with
      | wrote n =>
        by_cases hn : 0 < n
        · have hb : n ≤ (b :: t).length ∧ boundedSched ((b :: t).length - n) rest = true := by
            simpa [boundedSched, Bool.and_eq_true, decide_eq_true_eq] using hbnd
          rw [writeGo, if_pos hn]
          apply ih
          · simpa [List.length_drop] using hb.2
          · simp only [List.length_drop]
            simp only [List.length_cons] at hlen ⊢
            omega
        · rw [writeGo, if_neg hn]; rfl
      | err wb => rw [writeGo]; rfl

/-- Claim C1: for every frame buffer and every sequence of positive
short-write return values from the underlying `write` call (each at most
the bytes then remaining, and together covering the frame), the `Write`
retry loop sends every byte of the frame exactly once, in order, with no
duplication or gap — the final sent sequence is exactly the frame and
nothing remains — and, whatever the schedule, the loop returns success
exactly when the remaining length reaches zero. -/
theorem write_loop_sends_every_byte_once (frame : List Nat) (sched : List WriteRet)
    (hpos : ∀ r ∈ sched, isPosWrite r = true)
    (hbnd : boundedSched frame.length sched = true)
    (hcov : frame.length ≤ schedTotal sched) :
    hdlcWrite frame sched = some (OtError.none, frame, []) ∧
    (∀ (sch : List WriteRet) (sent remaining s rem : List Nat) (e : OtError),
      writeGo sent remaining sch = some (e, s, rem) →
      (e = OtError.none ↔ rem = [])) := by
  constructor
  · simpa [hdlcWrite] using writeGo_pos_complete sched [] frame hpos hbnd hcov
  · intro sch sent remaining s rem e h
    exact writeGo_success_iff sch sent remaining s rem e h

/-- Concrete instance of claim C1: the frame `[1,2,3,4,5]` sent through
short writes of 2, 2 and 1 bytes arrives exactly once, in order. -/
theorem write_loop_sends_every_byte_once_witness :
    hdlcWrite [1, 2, 3, 4, 5] [WriteRet.wrote 2, WriteRet.wrote 2, WriteRet.wrote 1] =
      some (OtError.none, [1, 2, 3, 4, 5], []) ∧
    (OtError.none = OtError.none ↔ ([] : List Nat) = []) :=
  ⟨(write_loop_sends_every_byte_once [1, 2, 3, 4, 5]
      [WriteRet.wrote 2, WriteRet.wrote 2, WriteRet.wrote 1]
      (by decide) (by decide) (by decide)).1,
   (write_loop_sends_every_byte_once [1, 2, 3, 4, 5]
      [WriteRet.wrote 2, WriteRet.wrote 2, WriteRet.wrote 1]
      (by decide) (by decide) (by decide)).2
     [] [] [] [] [] OtError.none (by rw [writeGo])⟩

/-- Claim C10: if the underlying `write` ever returns zero with bytes
still remaining, the retry loop returns `OT_ERROR_FAILED` immediately —
the remaining bytes are abandoned and the rest of the schedule is never
consulted — and consequently, on any bounded schedule at least as long
as the frame, the loop reaches a result: every iteration either strictly
decreases the remaining length or returns. -/
theorem write_zero_fails_and_loop_terminates :
    (∀ (sent remaining : List Nat) (rest : List WriteRet), remaining ≠ [] →
      writeGo sent remaining (WriteRet.wrote 0 :: rest) =
        some (OtError.failed, sent, remaining)) ∧
    (∀ (frame : List Nat) (sched : List WriteRet),
      boundedSched frame.length sched = true →
      frame.length ≤ sched.length →
      (hdlcWrite frame sched).isSome = true) := by
  constructor
  · intro sent remaining rest hne
    cases remaining with
    | nil => exact absurd rfl hne
    | cons b t => rw [writeGo]; rfl
  · intro frame sched hbnd hlen
    exact writeGo_total sched [] frame hbnd hlen

/-- Concrete instance of claim C10: a zero-byte `write` on `[9]` fails at
once, and a bounded two-entry schedule completes the frame `[1, 2]`. -/
theorem write_zero_fails_and_loop_terminates_witness :
    writeGo [] [9] [WriteRet.wrote 0, WriteRet.wrote 1] =
      some (OtError.failed, [], [9]) ∧
    (hdlcWrite [1, 2] [WriteRet.wrote 1, WriteRet.wrote 1]).isSome = true :=
  ⟨write_zero_fails_and_loop_terminates.1 [] [9] [WriteRet.wrote 1] (by decide),
   write_zero_fails_and_loop_terminates.2 [1, 2] [WriteRet.wrote 1, WriteRet.wrote 1]
     (by decide) (by decide)⟩

/-- Claim C2 refutation: the code's `Write` never inspects `errno` — a
would-block write (`rval < 0`, `errno == EAGAIN`) and any other negative
write (`errno != EAGAIN`) produce the very same `OT_ERROR_FAILED` result
from `SendFrame`, so the two failure kinds are not distinguishable in
the returned result, contradicting the claimed distinct `WriteFailed`
outcome. -/
theorem send_failure_kinds_not_distinct :
    sendFrame (EncodeOutcome.ok [1]) [WriteRet.err true] = some OtError.failed ∧
    sendFrame (EncodeOutcome.ok [1]) [WriteRet.err false] = some OtError.failed ∧
    sendFrame (EncodeOutcome.ok [1]) [WriteRet.err true] =
      sendFrame (EncodeOutcome.ok [1]) [WriteRet.err false] := by
  refine ⟨?_, ?_, ?_⟩ <;> rfl

/-- Claim C2 as amended: every negative result of the underlying `write`
call — would-block or not — makes the loop return the single error
`OT_ERROR_FAILED` with the remaining bytes abandoned, and `SendFrame`
delivers that same `OT_ERROR_FAILED` to its caller; the two failure
kinds are not distinguishable in the returned result. -/
theorem send_negative_write_yields_failed (wb : Bool) :
    (∀ (sent remaining : List Nat) (rest : List WriteRet), remaining ≠ [] →
      writeGo sent remaining (WriteRet.err wb :: rest) =
        some (OtError.failed, sent, remaining)) ∧
    (∀ (bytes : List Nat) (rest : List WriteRet), bytes ≠ [] →
      sendFrame (EncodeOutcome.ok bytes) (WriteRet.err wb :: rest) =
        some OtError.failed) := by
  constructor
  · intro sent remaining rest hne
    cases remaining with
    | nil => exact absurd rfl hne
    | cons b t => rw [writeGo]
  · intro bytes rest hne
    cases bytes with
    | nil => exact absurd rfl hne
    | cons b t =>
      show (writeGo [] (b :: t) (WriteRet.err wb :: rest)).map (fun x => x.1) = _
      rw [writeGo]
      rfl

/-- Concrete instance of the amended claim C2: a negative write on the
one-byte frame `[7]` yields `OT_ERROR_FAILED` for both errno kinds. -/
theorem send_negative_write_yields_failed_witness :
    writeGo [] [7] [WriteRet.err true] = some (OtError.failed, [], [7]) ∧
    sendFrame (EncodeOutcome.ok [7]) [WriteRet.err false] = some OtError.failed :=
  ⟨(send_negative_write_yields_failed true).1 [] [7] [] (by decide),
   (send_negative_write_yields_failed false).2 [7] [] (by decide)⟩

/-! ## Theorems about the read/decode cycle -/

/-- Claim C3: in every `Read` invocation, a negative read with a
would-block errno returns normally with no decode; every other negative
read terminates the process; a positive result of `n` bytes hands
exactly those `n` bytes to the decoder. -/
theorem read_error_and_byte_for_byte_decode :
    hdlcRead (ReadRet.err true) = ReadEffect.ret ∧
    hdlcRead (ReadRet.err false) = ReadEffect.aborted ∧
    (∀ bytes : List Nat, bytes ≠ [] →
      hdlcRead (ReadRet.ok bytes) = ReadEffect.decoded bytes) := by
  refine ⟨rfl, rfl, fun bytes hne => ?_⟩
  cases bytes with
  | nil => exact absurd rfl hne
  | cons b t => rfl

/-- Concrete instance of claim C3: a two-byte read is decoded
byte-for-byte. -/
theorem read_error_and_byte_for_byte_decode_witness :
    hdlcRead (ReadRet.ok [7, 8]) = ReadEffect.decoded [7, 8] :=
  read_error_and_byte_for_byte_decode.2.2 [7, 8] (by decide)

/-- Claim C8: during `Decode`, the `mIsDecoding` guard flag is set for
the whole decoder run — no synchronously invoked callback ever observes
it clear, a nested read attempt on the same manager is never carried out
while it is set, the guard refuses a read whenever the flag is true, and
the flag is clear again once `Decode` returns. -/
theorem decode_reentrancy_guard (evs : List DecodeEvent) (s : GuardState) :
    EventObs.sawFlag false ∉ (hdlcDecode evs s).1 ∧
    EventObs.readPerformed true ∉ (hdlcDecode evs s).1 ∧
    guardedRead { mIsDecoding := true } = false ∧
    (hdlcDecode evs s).2.mIsDecoding = false := by
  refine ⟨?_, ?_, rfl, rfl⟩ <;>
  · intro hmem
    simp only [hdlcDecode, List.mem_map] at hmem
    obtain ⟨e, _, he⟩ := hmem
    cases e <;> simp [guardedRead] at he

/-- Claim C4: `Init` on a manager whose channel is already live fails
with `OT_ERROR_ALREADY`, regardless of the target kind, the descriptor
the provisioner would return and the pty-mode configuration, and the
state is left entirely unchanged. -/
theorem init_already_open_fails (st : HdlcState) (sr : StatRes) (openRes : Int)
    (pe : Bool) (hopen : st.mSockFd ≠ -1) :
    hdlcInit st sr openRes pe = (OtError.already, st) := by
  simp [hdlcInit, hopen]

/-- Concrete instance of claim C4: a manager holding descriptor 5 is
refused a second `Init` and keeps its channel. -/
theorem init_already_open_fails_witness :
    hdlcInit { mSockFd := 5 } StatRes.chrDev 7 true = (OtError.already, { mSockFd := 5 }) :=
  init_already_open_fails { mSockFd := 5 } StatRes.chrDev 7 true (by decide)

/-- Claim C9: `Init` is atomic with respect to the open/closed state —
whenever it returns an error, the manager is closed after the call
exactly when it was closed before; in particular a closed manager stays
closed with no half-open descriptor retained. -/
theorem init_error_preserves_closedness (st : HdlcState) (sr : StatRes)
    (openRes : Int) (pe : Bool)
    (herr : (hdlcInit st sr openRes pe).1 ≠ OtError.none) :
    ((hdlcInit st sr openRes pe).2.mSockFd = -1 ↔ st.mSockFd = -1) := by
  by_cases hopen : st.mSockFd = -1
  · simp only [hdlcInit, hopen]
    cases sr <;> simp_all [hdlcInit] <;> split_ifs <;> simp_all
  · rw [init_already_open_fails st sr openRes pe hopen]

/-- Concrete instance of claim C9: a closed manager whose `OpenFile`
fails is still closed after the failed `Init`. -/
theorem init_error_preserves_closedness_witness :
    (hdlcInit { mSockFd := -1 } StatRes.chrDev (-1) true).1 ≠ OtError.none ∧
    ((hdlcInit { mSockFd := -1 } StatRes.chrDev (-1) true).2.mSockFd = -1 ↔
      ({ mSockFd := -1 } : HdlcState).mSockFd = -1) :=
  ⟨by decide,
   init_error_preserves_closedness { mSockFd := -1 } StatRes.chrDev (-1) true (by decide)⟩

/-- Claim C7: the assertion at the entry of `Deinit` fires exactly on an
already-closed manager — calling it with the channel closed is an
assertion-level error, and under the precondition that the channel is
open the assertion never fires and the call completes. -/
theorem deinit_assertion_iff_closed (st : HdlcState) (closeOk waitOk : Bool) :
    (st.mSockFd = -1 → hdlcDeinit st closeOk waitOk = Option.none) ∧
    (st.mSockFd ≠ -1 → (hdlcDeinit st closeOk waitOk).isSome = true) := by
  constructor
  · intro hclosed
    simp [hdlcDeinit, hclosed]
  · intro hopen
    simp only [hdlcDeinit, if_neg hopen]
    split_ifs <;> rfl

/-- Concrete instance of claim C7: the assertion fires on a closed
manager and passes on an open one. -/
theorem deinit_assertion_iff_closed_witness :
    hdlcDeinit { mSockFd := -1 } true true = Option.none ∧
    (hdlcDeinit { mSockFd := 4 } true true).isSome = true :=
  ⟨(deinit_assertion_iff_closed { mSockFd := -1 } true true).1 (by decide),
   (deinit_assertion_iff_closed { mSockFd := 4 } true true).2 (by decide)⟩

/-! ## Theorems about line configuration -/

/-- A rate outside the fixed table has no symbolic constant. -/
lemma baudOf_not_mem (speed : Nat) (h : speed ∉ supportedBauds) :
    baudOf speed = Option.none := by
  unfold baudOf
  rw [List.find?_eq_none.mpr]
  · rfl
  intro p hp hsp
  apply h
  have hps : p.1 = speed := by simpa using hsp
  exact hps ▸ List.mem_map_of_mem (fun q => q.1) hp

/-- Claim C5: when the parsed line parameters contain an unrecognized
field — a baud rate outside the fixed table, a parity letter other than
`N`/`E`/`O`, or a stop-bit count other than 1 or 2 — the configuration
phase of `OpenFile` terminates the process with
`OT_EXIT_INVALID_ARGUMENTS` (`none`), never falling back to a default
value for the unrecognized field. -/
theorem openFile_unrecognized_param_fatal (speed : Nat) (parity : Char) (cstopb : Int)
    (h : speed ∉ supportedBauds ∨ (parity ≠ 'N' ∧ parity ≠ 'E' ∧ parity ≠ 'O') ∨
      (cstopb ≠ 1 ∧ cstopb ≠ 2)) :
    termiosCfg speed parity cstopb = Option.none := by
  rcases h with hb | hp | hs
  · unfold termiosCfg
    rw [baudOf_not_mem speed hb]
    cases parityOf parity with
    | none => rfl
    | some p =>
      cases stopBitsOf cstopb with
      | none => rfl
      | some s => rfl
  · unfold termiosCfg
    rw [show parityOf parity = Option.none by simp [parityOf, hp.1, hp.2.1, hp.2.2]]
  · unfold termiosCfg
    rw [show stopBitsOf cstopb = Option.none by simp [stopBitsOf, hs.1, hs.2]]
    cases parityOf parity with
    | none => rfl
    | some p => rfl

/-- Concrete instances of claim C5: unsupported baud 123, parity `X` and
stop-bit count 3 each terminate the process. -/
theorem openFile_unrecognized_param_fatal_witness :
    termiosCfg 123 'N' 1 = Option.none ∧
    termiosCfg 115200 'X' 1 = Option.none ∧
    termiosCfg 115200 'N' 3 = Option.none :=
  ⟨openFile_unrecognized_param_fatal 123 'N' 1 (Or.inl (by decide)),
   openFile_unrecognized_param_fatal 115200 'X' 1 (Or.inr (Or.inl (by decide))),
   openFile_unrecognized_param_fatal 115200 'N' 3 (Or.inr (Or.inr (by decide)))⟩

/-- A decimal digit is not whitespace. -/
lemma digit_not_whitespace {c : Char} (h : c.isDigit = true) :
    c.isWhitespace = false := by
  cases hw : c.isWhitespace
  · rfl
  · exfalso
    simp only [Char.isWhitespace, Bool.or_eq_true, decide_eq_true_eq] at hw
    rcases hw with (((rfl | rfl) | rfl) | rfl) <;> exact absurd h (by decide)

/-- Splitting an all-digit run followed by a non-digit. -/
lemma digits_span (ds : List Char) (hds : ∀ c ∈ ds, c.isDigit = true) :
    ds.takeWhile Char.isDigit = ds ∧ ds.dropWhile Char.isDigit = [] := by
  induction ds with
  | nil => exact ⟨rfl, rfl⟩
  | cons d t ih =>
    have hd : d.isDigit = true := hds d (by simp)
    have ht := ih fun c hc => hds c (by simp [hc])
    simp [List.takeWhile_cons, List.dropWhile_cons, hd, ht.1, ht.2]

/-- Splitting an all-digit run with a single trailing non-digit. -/
lemma digits_span_append (ds : List Char) (p : Char)
    (hds : ∀ c ∈ ds, c.isDigit = true) (hp : p.isDigit = false) :
    (ds ++ [p]).takeWhile Char.isDigit = ds ∧
    (ds ++ [p]).dropWhile Char.isDigit = [p] := by
  induction ds with
  | nil => simp [List.takeWhile_cons, List.dropWhile_cons, hp]
  | cons d t ih =>
    have hd : d.isDigit = true := hds d (by simp)
    have ht := ih fun c hc => hds c (by simp [hc])
    simp [List.takeWhile_cons, List.dropWhile_cons, hd, ht.1, ht.2]

/-- Claim C6: any configuration field left unspecified keeps its default
— an empty configuration string yields 115200 baud, parity `N`, 1 stop
bit; a bare decimal rate leaves parity `N` and 1 stop bit; a rate
followed by only a parity letter leaves 1 stop bit. -/
theorem config_unspecified_fields_default :
    scanConfig [] = (115200, 'N', 1) ∧
    (∀ ds : List Char, ds ≠ [] → (∀ c ∈ ds, c.isDigit = true) →
      scanConfig ds = (digitsVal ds, 'N', 1)) ∧
    (∀ (ds : List Char) (p : Char), ds ≠ [] → (∀ c ∈ ds, c.isDigit = true) →
      p.isDigit = false →
      scanConfig (ds ++ [p]) = (digitsVal ds, p, 1)) := by
  refine ⟨rfl, ?_, ?_⟩
  · intro ds hne hds
    cases ds with
    | nil => exact absurd rfl hne
    | cons d t =>
      have hd : d.isDigit = true := hds d (by simp)
      have hspan := digits_span (d :: t) hds
      have hw : (d :: t).dropWhile Char.isWhitespace = d :: t := by
        simp [List.dropWhile_cons, digit_not_whitespace hd]
      unfold scanConfig
      rw [hw, hspan.1, hspan.2]
  · intro ds p hne hds hp
    cases ds with
    | nil => exact absurd rfl hne
    | cons d t =>
      have hd : d.isDigit = true := hds d (by simp)
      have hspan := digits_span_append (d :: t) p hds hp
      have hw : ((d :: t) ++ [p]).dropWhile Char.isWhitespace = (d :: t) ++ [p] := by
        simp [List.dropWhile_cons, digit_not_whitespace hd]
      unfold scanConfig
      rw [hw, hspan.1, hspan.2]
      rfl

/-- Concrete instances of claim C6: `""`, `"9600"` and `"9600E"` keep
the defaults for every unspecified field. -/
theorem config_unspecified_fields_default_witness :
    scanConfig [] = (115200, 'N', 1) ∧
    scanConfig ['9', '6', '0', '0'] = (9600, 'N', 1) ∧
    scanConfig ['9', '6', '0', '0', 'E'] = (9600, 'E', 1) := by
  refine ⟨config_unspecified_fields_default.1, ?_, ?_⟩
  · have := config_unspecified_fields_default.2.1 ['9', '6', '0', '0']
      (by decide) (by decide)
    simpa [digitsVal] using this
  · have := config_unspecified_fields_default.2.2 ['9', '6', '0', '0'] 'E'
      (by decide) (by decide) (by decide)
    simpa [digitsVal] using this

end HdlcIf
